import Mathlib

/-!
Verification of `docker_metrics_exporter` (src/main.rs) against its
specification.

Modelling conventions, shared by all definitions below:

* Rust `&str` / `String` values are modelled as `List Char` (`Str`).  All
  suffixes the program matches are ASCII, so byte indices and character
  indices coincide on every slice the program takes.
* Rust `f64` is modelled exactly: a finite float is an exact rational
  (`FVal.fin`), and the IEEE special values `inf`, `-inf`, `nan` are separate
  constructors.  Binary rounding of decimal literals is not modelled; all
  arithmetic is exact rational arithmetic.
* The saturating Rust cast `as u64` from `f64` is modelled by `fvalToU64`
  (truncation toward zero, negative and NaN to `0`, overflow and `inf` to
  `2^64 - 1`).
-/

abbrev Str := List Char

/-- Finite-or-special floating point value: `f64` modelled with exact
rationals for the finite values. -/
inductive FVal where
  | fin (q : ℚ)
  | inf
  | ninf
  | nan
deriving DecidableEq

/-- Numeric value of a list of ASCII digit characters read in base 10
(the usual positional reading, most significant first). -/
def digitsToNat (l : Str) : ℕ :=
  l.foldl (fun n c => 10 * n + (c.toNat - 48)) 0

/-- Strip one leading `'+'` or `'-'` sign; `true` means negative.
Models the sign handling of Rust `f64::from_str`. -/
def stripSign (s : Str) : Bool × Str :=
  match s with
  | [] => (false, [])
  | c :: r => if c = '+' then (false, r) else if c = '-' then (true, r) else (false, c :: r)

/-- Parse the mantissa part of a float literal: `digits`, `digits '.' digits?`
or `'.' digits` (Rust `f64::from_str` grammar), returning its exact value and
the unconsumed remainder. -/
def parseMantissa (s : Str) : Option (ℚ × Str) :=
  let ip := s.takeWhile Char.isDigit
  let r1 := s.dropWhile Char.isDigit
  match r1 with
  | '.' :: r2 =>
    let fp := r2.takeWhile Char.isDigit
    let r3 := r2.dropWhile Char.isDigit
    if ip = [] ∧ fp = [] then none
    else some ((digitsToNat ip : ℚ) + (digitsToNat fp : ℚ) / 10 ^ fp.length, r3)
  | _ => if ip = [] then none else some ((digitsToNat ip : ℚ), r1)

/-- Parse the optional exponent tail `('e'|'E') sign? digits` of a float
literal; the empty remainder means exponent `0`. -/
def parseExp (s : Str) : Option ℤ :=
  match s with
  | [] => some 0
  | c :: rest =>
    if c = 'e' ∨ c = 'E' then
      let sd := stripSign rest
      if sd.2 ≠ [] ∧ sd.2.all Char.isDigit then
        some ((if sd.1 then -1 else 1) * (digitsToNat sd.2 : ℤ))
      else none
    else none

/-- Model of Rust `str::parse::<f64>`: optional sign, then case-insensitive
`inf`/`infinity`/`nan` or a decimal mantissa with optional exponent, the whole
input consumed.  Finite results are exact rationals (binary rounding is not
modelled). -/
def parseF64 (s : Str) : Option FVal :=
  let sgn := stripSign s
  let low := sgn.2.map Char.toLower
  if low = "inf".data ∨ low = "infinity".data then
    some (if sgn.1 then .ninf else .inf)
  else if low = "nan".data then some .nan
  else
    match parseMantissa sgn.2 with
    | none => none
    | some (m, r) =>
      match parseExp r with
      | none => none
      | some e => some (.fin ((if sgn.1 then -m else m) * (10 : ℚ) ^ e))

/-- Multiplication `num * factor as f64` of the parsed number by an integer
unit factor (every factor used by the program is at least 1). -/
def fvalMulNat (v : FVal) (n : ℕ) : FVal :=
  match v with
  | .fin q => .fin (q * n)
  | .inf => .inf
  | .ninf => .ninf
  | .nan => .nan

/-- Largest `u64` value. -/
def U64MAX : ℕ := 2 ^ 64 - 1

/-- Model of the saturating Rust cast `as u64` on an `f64`: truncation toward
zero, negative values and NaN to `0`, `inf` and too-large values to
`u64::MAX`. -/
def fvalToU64 (v : FVal) : ℕ :=
  match v with
  | .fin q => if q < 0 then 0 else min (Int.toNat ⌊q⌋) U64MAX
  | .inf => U64MAX
  | .ninf => 0
  | .nan => 0

/-- Model of Rust `str::trim` (the program only ever meets ASCII whitespace,
which `Char.isWhitespace` covers). -/
def trimStr (s : Str) : Str :=
  ((s.dropWhile Char.isWhitespace).reverse.dropWhile Char.isWhitespace).reverse

/-- Model of Rust `str::replace(',', ".")`: both pattern and replacement are
single characters, so it is a character map. -/
def commaToDot (s : Str) : Str :=
  s.map (fun c => if c = ',' then '.' else c)

/-- Model of Rust `str::trim_end_matches('%')`: removes every trailing `'%'`. -/
def trimEndPercent (s : Str) : Str :=
  (s.reverse.dropWhile (fun c => c = '%')).reverse

/-- Model of Rust `str::ends_with` for a literal suffix. -/
def endsWith (s p : Str) : Bool :=
  p.reverse.isPrefixOf s.reverse

/-- The unit table of `parse_bytes` (src/main.rs line 50), in source order:
longer suffixes come before their substrings. -/
def unitsList : List (Str × ℕ) :=
  [("GiB".data, 1024 ^ 3), ("MiB".data, 1024 ^ 2), ("kB".data, 1024), ("B".data, 1)]

/-- `parse_bytes` (src/main.rs lines 49-58): first unit suffix in table order
that matches is stripped; the remaining prefix is trimmed, comma-normalised
and parsed as `f64` with `0.0` as the fallback; the result times the unit
factor is cast to `u64`.  No matching suffix gives `0`. -/
def parse_bytes (s : Str) : ℕ :=
  match unitsList.find? (fun u => endsWith s u.1) with
  | some u =>
    let num := (parseF64 (commaToDot (trimStr (s.take (s.length - u.1.length))))).getD (.fin 0)
    fvalToU64 (fvalMulNat num u.2)
  | none => 0

/-- Model of Rust `str::split('/')`: every occurrence separates, empty pieces
are kept, the empty string yields one empty piece. -/
def splitChar (sep : Char) (s : Str) : List Str :=
  match s with
  | [] => [[]]
  | c :: rest =>
    let r := splitChar sep rest
    if c = sep then [] :: r
    else
      match r with
      | h :: t => (c :: h) :: t
      | [] => [[c]]

/-- `parse_io` (src/main.rs lines 59-64): split on `'/'`, trim each side,
parse each side with `parse_bytes`, a missing side is `0`. -/
def parse_io (s : Str) : ℕ × ℕ :=
  let parts := (splitChar '/' s).map trimStr
  let a := ((parts.get? 0).map parse_bytes).getD 0
  let b := ((parts.get? 1).map parse_bytes).getD 0
  (a, b)

/-- One deserialized `docker stats` line (src/main.rs lines 22-34): five
required string fields. -/
structure DockerStat where
  name : Str
  cpu_perc : Str
  mem_usage : Str
  net_io : Str
  block_io : Str
deriving DecidableEq

/-- The cpu-percent expression of `parse_stat` (src/main.rs line 68), the
spec's `parse_percent`: strip trailing `'%'`, normalise the comma, parse as
`f64`, `0.0` on failure. -/
def parse_percent (s : Str) : FVal :=
  (parseF64 (commaToDot (trimEndPercent s))).getD (.fin 0)

/-- `parse_stat` (src/main.rs lines 67-75): all seven metric values of one
sample. -/
def parse_stat (stat : DockerStat) : FVal × ℕ × ℕ × ℕ × ℕ × ℕ × ℕ :=
  let cpu := parse_percent stat.cpu_perc
  let mem_parts := (splitChar '/' stat.mem_usage).map trimStr
  let mem_usage := parse_bytes ((mem_parts.get? 0).getD "0".data)
  let mem_limit := parse_bytes ((mem_parts.get? 1).getD "0".data)
  let ni := parse_io stat.net_io
  let bi := parse_io stat.block_io
  (cpu, mem_usage, mem_limit, ni.1, ni.2, bi.1, bi.2)

/-- One registered gauge family with a single `name` label (a prometheus
`GaugeVec`): a partial map from label value to the stored `f64`. -/
def Gauge := Str → Option FVal

/-- `GaugeVec::with_label_values(&[name]).set(v)`: create-or-overwrite the
gauge for one label value.  One such call is one atomic write. -/
def gaugeSet (g : Gauge) (label : Str) (v : FVal) : Gauge :=
  fun n => if n = label then some v else g n

/-- The seven gauge families of `Metrics` (src/main.rs lines 77-85), as
registered in the `Registry`. -/
structure Metrics where
  cpu : Gauge
  mem_usage : Gauge
  mem_limit : Gauge
  net_in : Gauge
  net_out : Gauge
  block_read : Gauge
  block_write : Gauge

/-- The registry before any sample: every gauge family has no label values. -/
def emptyMetrics : Metrics :=
  ⟨fun _ => none, fun _ => none, fun _ => none, fun _ => none,
   fun _ => none, fun _ => none, fun _ => none⟩

/-- The seven `.set` calls of `Metrics::update` (src/main.rs lines 104-110)
in source order, each one a single atomic gauge write.  The `u64` fields are
stored through the exact-valued model of the `as f64` cast. -/
def updateSteps (stat : DockerStat) : List (Metrics → Metrics) :=
  let name := stat.name
  let v := parse_stat stat
  [ fun m => { m with cpu := gaugeSet m.cpu name v.1 },
    fun m => { m with mem_usage := gaugeSet m.mem_usage name (.fin v.2.1) },
    fun m => { m with mem_limit := gaugeSet m.mem_limit name (.fin v.2.2.1) },
    fun m => { m with net_in := gaugeSet m.net_in name (.fin v.2.2.2.1) },
    fun m => { m with net_out := gaugeSet m.net_out name (.fin v.2.2.2.2.1) },
    fun m => { m with block_read := gaugeSet m.block_read name (.fin v.2.2.2.2.2.1) },
    fun m => { m with block_write := gaugeSet m.block_write name (.fin v.2.2.2.2.2.2) } ]

/-- `Metrics::update` (src/main.rs lines 101-111): all seven writes, in
order. -/
def Metrics.update (m : Metrics) (stat : DockerStat) : Metrics :=
  (updateSteps stat).foldl (fun acc f => f acc) m

/-- The state after the first `k` of the seven gauge writes of one update:
what exists between two of the writer's atomic stores. -/
def applyFirstSteps (stat : DockerStat) (k : ℕ) (m : Metrics) : Metrics :=
  ((updateSteps stat).take k).foldl (fun acc f => f acc) m

/-- What one container's entry looks like in a gathered snapshot: the seven
per-family gauge values under that `name` label. -/
structure MetricsRec where
  cpu : Option FVal
  mem_usage : Option FVal
  mem_limit : Option FVal
  net_in : Option FVal
  net_out : Option FVal
  block_read : Option FVal
  block_write : Option FVal
deriving DecidableEq

/-- Read the seven gauge values of one container out of a metrics state. -/
def readRec (m : Metrics) (name : Str) : MetricsRec :=
  ⟨m.cpu name, m.mem_usage name, m.mem_limit name, m.net_in name,
   m.net_out name, m.block_read name, m.block_write name⟩

/-- The record one full update writes for its own container. -/
def recOfStat (stat : DockerStat) : MetricsRec :=
  let v := parse_stat stat
  ⟨some v.1, some (.fin v.2.1), some (.fin v.2.2.1), some (.fin v.2.2.2.1),
   some (.fin v.2.2.2.2.1), some (.fin v.2.2.2.2.2.1), some (.fin v.2.2.2.2.2.2)⟩

/-- The record of a container that was never written. -/
def emptyRec : MetricsRec := ⟨none, none, none, none, none, none, none⟩

/-- The metrics states a `/metrics` request can observe while the ingestion
task works through a list of samples starting from `m0`.  The route's closure
(src/main.rs lines 164-171) calls `registry.gather()` without acquiring the
`Mutex` that the ingestion task holds during `update` (line 157): the mutex
orders only writers, so a gather may run between any two of the seven atomic
gauge writes of an update.  Each single gauge read or write is atomic. -/
inductive Observable : Metrics → List DockerStat → Metrics → Prop where
  | during (m0 : Metrics) (s : DockerStat) (rest : List DockerStat) (k : ℕ) :
      Observable m0 (s :: rest) (applyFirstSteps s k m0)
  | final (m0 : Metrics) : Observable m0 [] m0
  | later (m0 : Metrics) (s : DockerStat) (rest : List DockerStat) (obs : Metrics) :
      Observable (m0.update s) rest obs → Observable m0 (s :: rest) obs

/-- The per-record coherence property claimed of a snapshot: the container's
entry is either still unwritten or is exactly the record of one single raw
sample of the run. -/
def FromOneSample (obs : Metrics) (name : Str) (samples : List DockerStat) : Prop :=
  readRec obs name = emptyRec ∨ ∃ s ∈ samples, readRec obs name = recOfStat s

/-- A JSON value (the input contract of `serde_json::from_str`). -/
inductive Json where
  | null
  | bool (b : Bool)
  | num (q : ℚ)
  | str (s : Str)
  | arr (elems : List Json)
  | obj (fields : List (Str × Json))

/-- JSON whitespace (RFC 8259): space, tab, line feed, carriage return. -/
def isJsonWS (c : Char) : Bool :=
  c = ' ' ∨ c = '\t' ∨ c = '\n' ∨ c = '\r'

/-- Skip JSON whitespace. -/
def skipWS (s : Str) : Str := s.dropWhile isJsonWS

/-- Value of one hexadecimal digit. -/
def hexVal (c : Char) : Option ℕ :=
  if c.isDigit then some (c.toNat - 48)
  else if 'a' ≤ c ∧ c ≤ 'f' then some (c.toNat - 87)
  else if 'A' ≤ c ∧ c ≤ 'F' then some (c.toNat - 55)
  else none

/-- Body of a JSON string after the opening quote: unescape up to the closing
quote, return the decoded text and the remainder.  Surrogate-pair escapes are
not modelled (any `\uD800`-`\uDFFF` escape is rejected); the program's inputs
never use them.  The fuel only bounds the recursion; `length + 1` is always
enough because every step consumes at least one character. -/
def parseJString (fuel : ℕ) (s : Str) : Option (Str × Str) :=
  match fuel, s with
  | 0, _ => none
  | _, [] => none
  | fuel + 1, c :: rest =>
    if c = '"' then some ([], rest)
    else if c = '\\' then
      match rest with
      | [] => none
      | e :: rest2 =>
        let dec : Option (Char × Str) :=
          if e = '"' then some ('"', rest2)
          else if e = '\\' then some ('\\', rest2)
          else if e = '/' then some ('/', rest2)
          else if e = 'b' then some (Char.ofNat 8, rest2)
          else if e = 'f' then some (Char.ofNat 12, rest2)
          else if e = 'n' then some ('\n', rest2)
          else if e = 'r' then some ('\r', rest2)
          else if e = 't' then some ('\t', rest2)
          else if e = 'u' then
            match rest2 with
            | h1 :: h2 :: h3 :: h4 :: rest3 =>
              match hexVal h1, hexVal h2, hexVal h3, hexVal h4 with
              | some a, some b, some c', some d =>
                let n := ((a * 16 + b) * 16 + c') * 16 + d
                if 0xD800 ≤ n ∧ n < 0xE000 then none
                else some (Char.ofNat n, rest3)
              | _, _, _, _ => none
            | _ => none
          else none
        match dec with
        | none => none
        | some (ch, r) =>
          match parseJString fuel r with
          | none => none
          | some (cs, r2) => some (ch :: cs, r2)
    else if c.toNat < 0x20 then none
    else
      match parseJString fuel rest with
      | none => none
      | some (cs, r2) => some (c :: cs, r2)

/-- A JSON number (RFC 8259 grammar: optional minus, integer part without a
leading-zero violation, optional fraction, optional exponent), as an exact
rational, with the remainder. -/
def parseJNumber (s : Str) : Option (ℚ × Str) :=
  let (neg, s1) : Bool × Str :=
    match s with
    | '-' :: r => (true, r)
    | r => (false, r)
  let ip := s1.takeWhile Char.isDigit
  let r1 := s1.dropWhile Char.isDigit
  if ip = [] then none
  else if 1 < ip.length ∧ ip.head? = some '0' then none
  else
    let frac : Option (ℚ × Str) :=
      match r1 with
      | '.' :: r =>
        let fp := r.takeWhile Char.isDigit
        if fp = [] then none
        else some ((digitsToNat fp : ℚ) / 10 ^ fp.length, r.dropWhile Char.isDigit)
      | r => some (0, r)
    match frac with
    | none => none
    | some (fq, r2) =>
      let base : ℚ := (digitsToNat ip : ℚ) + fq
      let exp : Option (ℤ × Str) :=
        match r2 with
        | c :: r =>
          if c = 'e' ∨ c = 'E' then
            let sd := stripSign r
            let ed := sd.2.takeWhile Char.isDigit
            if ed = [] then none
            else some ((if sd.1 then -1 else 1) * (digitsToNat ed : ℤ),
              sd.2.dropWhile Char.isDigit)
          else some (0, c :: r)
        | [] => some (0, [])
      exp.map (fun p => ((if neg then -base else base) * (10 : ℚ) ^ p.1, p.2))

mutual

/-- Parse one JSON value, whitespace-tolerant, returning the remainder.  The
fuel bounds the call depth; each nested call happens after at least one
character was consumed, so `length + 1` fuel is always enough. -/
def parseJValue : ℕ → Str → Option (Json × Str)
  | 0, _ => none
  | fuel + 1, s =>
    match skipWS s with
    | [] => none
    | c :: rest =>
      if c = 'n' then
        match rest with
        | 'u' :: 'l' :: 'l' :: r => some (.null, r)
        | _ => none
      else if c = 't' then
        match rest with
        | 'r' :: 'u' :: 'e' :: r => some (.bool true, r)
        | _ => none
      else if c = 'f' then
        match rest with
        | 'a' :: 'l' :: 's' :: 'e' :: r => some (.bool false, r)
        | _ => none
      else if c = '"' then
        match parseJString (rest.length + 1) rest with
        | some (cs, r) => some (.str cs, r)
        | none => none
      else if c = '[' then
        match skipWS rest with
        | ']' :: r => some (.arr [], r)
        | s2 =>
          match parseJElems fuel s2 with
          | some (vs, r) => some (.arr vs, r)
          | none => none
      else if c = '{' then
        match skipWS rest with
        | '}' :: r => some (.obj [], r)
        | s2 =>
          match parseJFields fuel s2 with
          | some (fs, r) => some (.obj fs, r)
          | none => none
      else
        match parseJNumber (c :: rest) with
        | some (q, r) => some (.num q, r)
        | none => none

/-- Parse the elements of a non-empty JSON array up to and past `']'`. -/
def parseJElems : ℕ → Str → Option (List Json × Str)
  | 0, _ => none
  | fuel + 1, s =>
    match parseJValue fuel s with
    | none => none
    | some (v, r) =>
      match skipWS r with
      | ',' :: r2 =>
        match parseJElems fuel r2 with
        | some (vs, r3) => some (v :: vs, r3)
        | none => none
      | ']' :: r2 => some ([v], r2)
      | _ => none

/-- Parse the members of a non-empty JSON object up to and past `'}'`. -/
def parseJFields : ℕ → Str → Option (List (Str × Json) × Str)
  | 0, _ => none
  | fuel + 1, s =>
    match skipWS s with
    | '"' :: r =>
      match parseJString (r.length + 1) r with
      | none => none
      | some (key, r2) =>
        match skipWS r2 with
        | ':' :: r3 =>
          match parseJValue fuel r3 with
          | none => none
          | some (v, r4) =>
            match skipWS r4 with
            | ',' :: r5 =>
              match parseJFields fuel r5 with
              | some (fs, r6) => some ((key, v) :: fs, r6)
              | none => none
            | '}' :: r5 => some ([(key, v)], r5)
            | _ => none
        | _ => none
    | _ => none

end

/-- The values stored under one key of a JSON object (serde reports a
duplicate of a known field as an error, so multiplicity matters). -/
def fieldValues (fields : List (Str × Json)) (key : Str) : List Json :=
  (fields.filter (fun f => f.1 = key)).map (fun f => f.2)

/-- Extract one required string field the way serde's derived deserializer
does: the key must appear exactly once among the object's members and its
value must be a JSON string; unknown keys are ignored. -/
def getStrField (fields : List (Str × Json)) (key : Str) : Option Str :=
  match fieldValues fields key with
  | [Json.str v] => some v
  | _ => none

/-- Model of `serde_json::from_str::<DockerStat>` (src/main.rs line 156): the
whole line must be one JSON object (plus whitespace), and the five renamed
fields `Name`, `CPUPerc`, `MemUsage`, `NetIO`, `BlockIO` must each be present
exactly once with a string value; any other field is ignored. -/
def from_str (line : Str) : Option DockerStat :=
  match parseJValue (line.length + 1) line with
  | some (Json.obj fields, rest) =>
    if skipWS rest = ([] : Str) then
      match getStrField fields "Name".data, getStrField fields "CPUPerc".data,
            getStrField fields "MemUsage".data, getStrField fields "NetIO".data,
            getStrField fields "BlockIO".data with
      | some n, some c, some m, some ni, some bi => some ⟨n, c, m, ni, bi⟩
      | _, _, _, _, _ => none
    else none
  | some _ => none
  | none => none

/-- The ingestion task's loop body over a finite prefix of the line stream
(src/main.rs lines 154-161): a line that deserializes updates the store under
the lock, any other line is skipped and the loop continues. -/
def ingestLines (m : Metrics) (lines : List Str) : Metrics :=
  lines.foldl (fun acc line =>
    match from_str line with
    | some stat => acc.update stat
    | none => acc) m

/-- The four runtime settings of `main` with their defaults
(src/main.rs lines 118-121). -/
structure Config where
  target : Str
  port : ℕ
  host : Str
  db : Str
deriving DecidableEq

/-- The defaults: prometheus target, port 9187, host localhost, db metrics. -/
def defaultConfig : Config :=
  ⟨"prometheus".data, 9187, "localhost".data, "metrics".data⟩

/-- Strip one leading `'+'` (Rust's unsigned integer parser accepts it). -/
def stripPlus (s : Str) : Str :=
  match s with
  | [] => []
  | c :: r => if c = '+' then r else c :: r

/-- Model of Rust `str::parse::<u16>`: optional `'+'`, then one or more
decimal digits whose value fits in 16 bits; anything else is an error. -/
def parseU16 (s : Str) : Option ℕ :=
  let ds := stripPlus s
  if ds ≠ [] ∧ ds.all Char.isDigit ∧ digitsToNat ds ≤ 65535 then
    some (digitsToNat ds)
  else none

/-- How the argument loop ends: fall through to the target dispatch, or the
early `return Ok(())` of `-h`/`--help` (exit status 0 after printing usage). -/
inductive ArgsOutcome where
  | proceed (cfg : Config)
  | helpExit (cfg : Config)
deriving DecidableEq

/-- The argument loop of `main` (src/main.rs lines 123-134): a flag with a
following value consumes it, a flag without one is skipped, an unparseable
port value falls back to 9187 via `unwrap_or`, and any unrecognized argument
is silently ignored by the `_ => {}` arm. -/
def argLoop (args : List Str) (cfg : Config) : ArgsOutcome :=
  match args with
  | [] => .proceed cfg
  | a :: rest =>
    if a = "--target".data then
      match rest with
      | v :: rest2 => argLoop rest2 { cfg with target := v }
      | [] => argLoop [] cfg
    else if a = "--port".data ∨ a = "-p".data then
      match rest with
      | v :: rest2 => argLoop rest2 { cfg with port := (parseU16 v).getD 9187 }
      | [] => argLoop [] cfg
    else if a = "--host".data then
      match rest with
      | v :: rest2 => argLoop rest2 { cfg with host := v }
      | [] => argLoop [] cfg
    else if a = "--db".data then
      match rest with
      | v :: rest2 => argLoop rest2 { cfg with db := v }
      | [] => argLoop [] cfg
    else if a = "-h".data ∨ a = "--help".data then .helpExit cfg
    else argLoop rest cfg

/-- What a `main` invocation does after reading its arguments: terminate with
an exit status (recording whether the usage text was printed), serve the
prometheus endpoint, or run the influxdb write loop. -/
inductive MainAction where
  | exit (code : ℕ) (usagePrinted : Bool)
  | servePrometheus (cfg : Config)
  | runInfluxLoop (cfg : Config)
deriving DecidableEq

/-- The startup control flow of `main` (src/main.rs lines 117-134, 147, 175,
199-202): parse arguments from the defaults, then dispatch on the target
string; `-h`/`--help` and an unrecognized target both print usage and return
`Ok(())`, which is exit status 0. -/
def mainAction (args : List Str) : MainAction :=
  match argLoop args defaultConfig with
  | .helpExit _ => .exit 0 true
  | .proceed cfg =>
    if cfg.target = "prometheus".data then .servePrometheus cfg
    else if cfg.target = "influxdb".data then .runInfluxLoop cfg
    else .exit 0 true

/-- The behaviour claimed for an invalid startup configuration: the process
stops right away with a non-zero status after printing the usage message. -/
def ExitsNonZeroWithUsage (a : MainAction) : Prop :=
  ∃ code, a = .exit code true ∧ code ≠ 0

/-- Exact value of the decimal literal `<ip>.<fp>` (integer part `ip`,
fraction part `fp`, both digit strings). -/
def decimalVal (ip fp : Str) : ℚ :=
  (digitsToNat ip : ℚ) + (digitsToNat fp : ℚ) / 10 ^ fp.length

/-- The IEEE comparison `0 <= v` on a stored float value (false for NaN). -/
def fvalNonneg : FVal → Prop
  | .fin q => 0 ≤ q
  | .inf => True
  | .ninf => False
  | .nan => False

instance : DecidablePred fvalNonneg := fun v =>
  match v with
  | .fin q => inferInstanceAs (Decidable (0 ≤ q))
  | .inf => inferInstanceAs (Decidable True)
  | .ninf => inferInstanceAs (Decidable False)
  | .nan => inferInstanceAs (Decidable False)

/-- First concrete sample for container `web` (all seven values distinct from
`s2c`). -/
def s1c : DockerStat :=
  ⟨"web".data, "1.00%".data, "1B / 10B".data, "2B / 3B".data, "4B / 5B".data⟩

/-- Second concrete sample for container `web`. -/
def s2c : DockerStat :=
  ⟨"web".data, "9.00%".data, "6B / 60B".data, "7B / 8B".data, "11B / 12B".data⟩

/-- The store as it exists after the full first update and the first three of
the seven gauge writes of the second update. -/
def tornState : Metrics :=
  applyFirstSteps s2c 3 (emptyMetrics.update s1c)

/-- The spec's end-to-end example line. -/
def goodLine : Str :=
  "\x7b\"Name\":\"web\",\"CPUPerc\":\"5.00%\",\"MemUsage\":\"10MiB / 100MiB\",\"NetIO\":\"1kB / 2kB\",\"BlockIO\":\"0B / 0B\"\x7d".data

/-- The same line with the required `Name` member removed: it no longer
deserializes into a `DockerStat`. -/
def badLine : Str :=
  "\x7b\"CPUPerc\":\"5.00%\",\"MemUsage\":\"10MiB / 100MiB\",\"NetIO\":\"1kB / 2kB\",\"BlockIO\":\"0B / 0B\"\x7d".data

/-- The sample `goodLine` deserializes to. -/
def goodStat : DockerStat :=
  ⟨"web".data, "5.00%".data, "10MiB / 100MiB".data, "1kB / 2kB".data, "0B / 0B".data⟩

theorem isDigit_ne {c : Char} (x : Char) (h : c.isDigit = true)
    (hx : x.isDigit = false) : c ≠ x := by
  intro he
  subst he
  rw [h] at hx
  cases hx

theorem toNat_le_of_isDigit {c : Char} (h : c.isDigit = true) : c.toNat ≤ 57 := by
  simp [Char.isDigit] at h
  exact UInt32.toNat_le_of_le (by decide) h.2

theorem toLower_of_isDigit {c : Char} (h : c.isDigit = true) : c.toLower = c := by
  have hb := toNat_le_of_isDigit h
  have hcond : ¬(Char.toNat c ≥ 65 ∧ Char.toNat c ≤ 90) := by omega
  simp only [Char.toLower]
  rw [if_neg hcond]

theorem not_whitespace_of_isDigit {c : Char} (h : c.isDigit = true) :
    c.isWhitespace = false := by
  by_cases hw : c.isWhitespace = true
  · simp only [Char.isWhitespace, Bool.or_eq_true, decide_eq_true_eq] at hw
    rcases hw with ((rfl | rfl) | rfl) | rfl <;> cases h
  · simpa using hw

theorem takeWhile_all {p : Char → Bool} {l : Str} (h : ∀ x ∈ l, p x = true) :
    l.takeWhile p = l := by
  induction l with
  | nil => rfl
  | cons c t ih =>
    rw [List.takeWhile_cons, h c (by simp)]
    simp [ih fun x hx => h x (by simp [hx])]

theorem dropWhile_all {p : Char → Bool} {l : Str} (h : ∀ x ∈ l, p x = true) :
    l.dropWhile p = [] := by
  induction l with
  | nil => rfl
  | cons c t ih =>
    rw [List.dropWhile_cons, h c (by simp)]
    simp [ih fun x hx => h x (by simp [hx])]

theorem dropWhile_none {p : Char → Bool} {l : Str} (h : ∀ x ∈ l, p x = false) :
    l.dropWhile p = l := by
  cases l with
  | nil => rfl
  | cons c t => simp [List.dropWhile_cons, h c (by simp)]

theorem takeWhile_append_cons {p : Char → Bool} {l : Str} {c : Char} {t : Str}
    (hl : ∀ x ∈ l, p x = true) (hc : p c = false) :
    (l ++ c :: t).takeWhile p = l := by
  induction l with
  | nil => simp [List.takeWhile_cons, hc]
  | cons a l ih =>
    rw [List.cons_append, List.takeWhile_cons, hl a (by simp)]
    simp [ih fun x hx => hl x (by simp [hx])]

theorem dropWhile_append_cons {p : Char → Bool} {l : Str} {c : Char} {t : Str}
    (hl : ∀ x ∈ l, p x = true) (hc : p c = false) :
    (l ++ c :: t).dropWhile p = c :: t := by
  induction l with
  | nil => simp [List.dropWhile_cons, hc]
  | cons a l ih =>
    rw [List.cons_append, List.dropWhile_cons, hl a (by simp)]
    simp [ih fun x hx => hl x (by simp [hx])]

theorem trimStr_eq_self {d : Str} (h : ∀ c ∈ d, c.isWhitespace = false) :
    trimStr d = d := by
  unfold trimStr
  rw [dropWhile_none h, dropWhile_none (fun c hc => h c (List.mem_reverse.mp hc)),
    List.reverse_reverse]

theorem commaToDot_digits {d : Str} (h : ∀ c ∈ d, c.isDigit = true) :
    commaToDot d = d := by
  unfold commaToDot
  induction d with
  | nil => rfl
  | cons c t ih =>
    rw [List.map_cons, if_neg (isDigit_ne ',' (h c (by simp)) (by decide)),
      ih fun x hx => h x (by simp [hx])]

theorem splitChar_not_mem {sep : Char} {s : Str} (h : sep ∉ s) :
    splitChar sep s = [s] := by
  induction s with
  | nil => rfl
  | cons c t ih =>
    rw [splitChar, ih (fun hm => h (by simp [hm])), if_neg (fun he => h (by simp [he]))]

theorem splitChar_append {sep : Char} {a b : Str} (h : sep ∉ a) :
    splitChar sep (a ++ sep :: b) = a :: splitChar sep b := by
  induction a with
  | nil => simp [splitChar]
  | cons c t ih =>
    rw [List.cons_append, splitChar, ih (fun hm => h (by simp [hm])),
      if_neg (fun he : c = sep => h (by simp [he]))]

theorem isPrefixOf_self_append (l t : Str) : l.isPrefixOf (l ++ t) = true := by
  induction l with
  | nil => simp [List.isPrefixOf]
  | cons a l ih => simp [List.isPrefixOf_cons₂, ih]

theorem endsWith_append (d p : Str) : endsWith (d ++ p) p = true := by
  unfold endsWith
  rw [List.reverse_append]
  exact isPrefixOf_self_append _ _

theorem parseMantissa_digits {ip : Str} (hip : ∀ c ∈ ip, c.isDigit = true)
    (hne : ip ≠ []) : parseMantissa ip = some ((digitsToNat ip : ℚ), []) := by
  unfold parseMantissa
  rw [takeWhile_all hip, dropWhile_all hip]
  simp [hne]

theorem parseMantissa_digits_dot {ip fp : Str} (hip : ∀ c ∈ ip, c.isDigit = true)
    (hfp : ∀ c ∈ fp, c.isDigit = true) (hne : ip ≠ []) :
    parseMantissa (ip ++ '.' :: fp) = some (decimalVal ip fp, []) := by
  unfold parseMantissa decimalVal
  rw [takeWhile_append_cons hip (by decide), dropWhile_append_cons hip (by decide)]
  simp [takeWhile_all hfp, dropWhile_all hfp, hne]

theorem parseF64_mantissa_digit_head {c0 : Char} {t : Str} (h0 : c0.isDigit = true)
    {v : ℚ} (hm : parseMantissa (c0 :: t) = some (v, [])) :
    parseF64 (c0 :: t) = some (.fin v) := by
  have hss : stripSign (c0 :: t) = (false, c0 :: t) := by
    simp only [stripSign]
    rw [if_neg (isDigit_ne '+' h0 (by decide)), if_neg (isDigit_ne '-' h0 (by decide))]
  have hc0 : c0.toLower = c0 := toLower_of_isDigit h0
  have h1 : ¬((c0 :: t).map Char.toLower = "inf".data ∨
      (c0 :: t).map Char.toLower = "infinity".data) := by
    rw [List.map_cons, hc0]
    rintro (he | he) <;>
      · injection he with ha _
        exact isDigit_ne 'i' h0 (by decide) ha
  have h2 : ¬((c0 :: t).map Char.toLower = "nan".data) := by
    rw [List.map_cons, hc0]
    intro he
    injection he with ha _
    exact isDigit_ne 'n' h0 (by decide) ha
  simp only [parseF64, hss, if_neg h1, if_neg h2, hm, parseExp]
  simp

theorem reverse_head_of_ne_nil {d : Str} (hne : d ≠ []) :
    ∃ c t, d.reverse = c :: t ∧ c ∈ d := by
  cases hrev : d.reverse with
  | nil =>
    exact absurd (by simpa using congrArg List.reverse hrev) hne
  | cons c t =>
    refine ⟨c, t, rfl, ?_⟩
    have : c ∈ d.reverse := by rw [hrev]; simp
    exact List.mem_reverse.mp this

theorem find_unit_of_last {d : Str} {u : Str} {f : ℕ} (hu : (u, f) ∈ unitsList)
    {c : Char} {t : Str} (hrev : d.reverse = c :: t)
    (hc : c.isDigit = true ∨ c = '.' ∨ c = ',') :
    unitsList.find? (fun p => endsWith (d ++ u) p.1) = some (u, f) := by
  have hci : ('i' == c) = false := by
    rw [beq_eq_false_iff_ne]
    rcases hc with h | rfl | rfl
    · exact (isDigit_ne 'i' h (by decide)).symm
    · decide
    · decide
  have hck : ('k' == c) = false := by
    rw [beq_eq_false_iff_ne]
    rcases hc with h | rfl | rfl
    · exact (isDigit_ne 'k' h (by decide)).symm
    · decide
    · decide
  have hrw : ∀ p : Str, (d ++ p).reverse = p.reverse ++ c :: t := by
    intro p
    rw [List.reverse_append, hrev]
  simp only [unitsList, List.mem_cons, List.not_mem_nil, or_false, Prod.mk.injEq] at hu
  rcases hu with ⟨rfl, rfl⟩ | ⟨rfl, rfl⟩ | ⟨rfl, rfl⟩ | ⟨rfl, rfl⟩
  · -- GiB
    have e1 : endsWith (d ++ "GiB".data) "GiB".data = true := endsWith_append _ _
    simp only [unitsList]
    rw [List.find?_cons_of_pos _ (by simpa using e1)]
  · -- MiB
    have e1 : endsWith (d ++ "MiB".data) "GiB".data = false := by
      unfold endsWith
      rw [hrw]
      show (['B', 'i', 'G'] : Str).isPrefixOf ('B' :: 'i' :: 'M' :: c :: t) = false
      simp [List.isPrefixOf_cons₂]
    have e2 : endsWith (d ++ "MiB".data) "MiB".data = true := endsWith_append _ _
    simp only [unitsList]
    rw [List.find?_cons_of_neg _ (by simp [e1]), List.find?_cons_of_pos _ (by simpa using e2)]
  · -- kB
    have e1 : endsWith (d ++ "kB".data) "GiB".data = false := by
      unfold endsWith
      rw [hrw]
      show (['B', 'i', 'G'] : Str).isPrefixOf ('B' :: 'k' :: c :: t) = false
      simp [List.isPrefixOf_cons₂]
    have e2 : endsWith (d ++ "kB".data) "MiB".data = false := by
      unfold endsWith
      rw [hrw]
      show (['B', 'i', 'M'] : Str).isPrefixOf ('B' :: 'k' :: c :: t) = false
      simp [List.isPrefixOf_cons₂]
    have e3 : endsWith (d ++ "kB".data) "kB".data = true := endsWith_append _ _
    simp only [unitsList]
    rw [List.find?_cons_of_neg _ (by simp [e1]), List.find?_cons_of_neg _ (by simp [e2]),
      List.find?_cons_of_pos _ (by simpa using e3)]
  · -- B
    have e1 : endsWith (d ++ "B".data) "GiB".data = false := by
      unfold endsWith
      rw [hrw]
      show (['B', 'i', 'G'] : Str).isPrefixOf ('B' :: c :: t) = false
      simp [List.isPrefixOf_cons₂, hci]
    have e2 : endsWith (d ++ "B".data) "MiB".data = false := by
      unfold endsWith
      rw [hrw]
      show (['B', 'i', 'M'] : Str).isPrefixOf ('B' :: c :: t) = false
      simp [List.isPrefixOf_cons₂, hci]
    have e3 : endsWith (d ++ "B".data) "kB".data = false := by
      unfold endsWith
      rw [hrw]
      show (['B', 'k'] : Str).isPrefixOf ('B' :: c :: t) = false
      simp [List.isPrefixOf_cons₂, hck]
    have e4 : endsWith (d ++ "B".data) "B".data = true := endsWith_append _ _
    simp only [unitsList]
    rw [List.find?_cons_of_neg _ (by simp [e1]), List.find?_cons_of_neg _ (by simp [e2]),
      List.find?_cons_of_neg _ (by simp [e3]), List.find?_cons_of_pos _ (by simpa using e4)]

theorem take_before_suffix (d u : Str) :
    (d ++ u).take ((d ++ u).length - u.length) = d := by
  rw [List.length_append, Nat.add_sub_cancel]
  exact List.take_left d u

theorem fvalToU64_fin_of_range {q : ℚ} (h0 : 0 ≤ q) (h64 : q < 2 ^ 64) :
    fvalToU64 (.fin q) = Int.toNat ⌊q⌋ := by
  simp only [fvalToU64]
  rw [if_neg (not_lt.mpr h0), min_eq_left]
  have hfl : ⌊q⌋ < (2 : ℤ) ^ 64 := by
    rw [Int.floor_lt]
    exact_mod_cast h64
  have hpow : (2 : ℤ) ^ 64 = 18446744073709551616 := by norm_num
  unfold U64MAX
  omega

/-- C4: for every valid size string `<number><unit>` (digits with an
optional `.` or `,` decimal separator, unit one of the table), the first
matching suffix in the order GiB, MiB, kB, B is exactly the given unit, and
`parse_bytes` returns the number times the unit factor (B=1, kB=1024,
MiB=1024^2, GiB=1024^3) truncated to an unsigned integer. -/
theorem c4_valid_size_strings (ip fp u : Str) (f : ℕ) (sep : Char)
    (hu : (u, f) ∈ unitsList)
    (hip : ∀ c ∈ ip, c.isDigit = true) (hfp : ∀ c ∈ fp, c.isDigit = true)
    (hne : ip ≠ []) (hsep : sep = '.' ∨ sep = ',')
    (hr1 : decimalVal ip fp * f < 2 ^ 64)
    (hr2 : (digitsToNat ip : ℚ) * f < 2 ^ 64) :
    unitsList.find? (fun p => endsWith ((ip ++ sep :: fp) ++ u) p.1) = some (u, f) ∧
    parse_bytes ((ip ++ sep :: fp) ++ u) = Int.toNat ⌊decimalVal ip fp * f⌋ ∧
    parse_bytes (ip ++ u) = Int.toNat ⌊(digitsToNat ip : ℚ) * f⌋ := by
  obtain ⟨c0, ip', rfl⟩ : ∃ c0 ip', ip = c0 :: ip' := by
    cases ip with
    | nil => exact absurd rfl hne
    | cons a l => exact ⟨a, l, rfl⟩
  set ip := c0 :: ip' with hip_def
  have h0 : c0.isDigit = true := hip c0 (by simp [hip_def])
  -- last character of the two stripped prefixes
  have hd1 : ∃ c t, (ip ++ sep :: fp).reverse = c :: t ∧
      (c.isDigit = true ∨ c = '.' ∨ c = ',') := by
    cases hfr : fp.reverse with
    | nil =>
      have hfp0 : fp = [] := by simpa using congrArg List.reverse hfr
      subst hfp0
      exact ⟨sep, ip.reverse, by simp, Or.inr hsep⟩
    | cons c t =>
      refine ⟨c, t ++ sep :: ip.reverse, ?_,
        Or.inl (hfp c (List.mem_reverse.mp (by rw [hfr]; simp)))⟩
      simp [List.reverse_append, List.reverse_cons, hfr]
  obtain ⟨c, t, hrev, hcchar⟩ := hd1
  have hd2 : ∃ c' t', ip.reverse = c' :: t' ∧
      (c'.isDigit = true ∨ c' = '.' ∨ c' = ',') := by
    obtain ⟨c', t', hr', hmem⟩ := reverse_head_of_ne_nil hne
    exact ⟨c', t', hr', Or.inl (hip c' hmem)⟩
  obtain ⟨c', t', hrev', hcchar'⟩ := hd2
  have hfind1 := find_unit_of_last hu hrev hcchar
  have hfind2 := find_unit_of_last hu hrev' hcchar'
  -- whitespace-freeness of the prefixes
  have hdchars : ∀ x ∈ ip ++ sep :: fp, x.isWhitespace = false := by
    intro x hx
    rcases List.mem_append.mp hx with h | h
    · exact not_whitespace_of_isDigit (hip x h)
    · rcases List.mem_cons.mp h with rfl | h
      · rcases hsep with rfl | rfl <;> decide
      · exact not_whitespace_of_isDigit (hfp x h)
  have hipchars : ∀ x ∈ ip, x.isWhitespace = false :=
    fun x hx => not_whitespace_of_isDigit (hip x hx)
  -- comma normalisation
  have hcomma : commaToDot (ip ++ sep :: fp) = ip ++ '.' :: fp := by
    have h1 : commaToDot (ip ++ sep :: fp) =
        commaToDot ip ++ (if sep = ',' then '.' else sep) :: commaToDot fp := by
      simp [commaToDot]
    rw [h1, commaToDot_digits hip, commaToDot_digits hfp]
    rcases hsep with rfl | rfl <;> simp
  -- float parses
  have hp1 : parseF64 (ip ++ '.' :: fp) = some (.fin (decimalVal ip fp)) := by
    rw [hip_def, List.cons_append]
    exact parseF64_mantissa_digit_head h0
      (by rw [← List.cons_append, ← hip_def]; exact parseMantissa_digits_dot hip hfp hne)
  have hp2 : parseF64 ip = some (.fin (digitsToNat ip : ℚ)) := by
    rw [hip_def]
    exact parseF64_mantissa_digit_head h0
      (by rw [← hip_def]; exact parseMantissa_digits hip hne)
  refine ⟨hfind1, ?_, ?_⟩
  · simp only [parse_bytes, hfind1, take_before_suffix, trimStr_eq_self hdchars, hcomma,
      hp1, Option.getD_some, fvalMulNat]
    refine fvalToU64_fin_of_range (mul_nonneg ?_ (by positivity)) hr1
    unfold decimalVal
    positivity
  · simp only [parse_bytes, hfind2, take_before_suffix, trimStr_eq_self hipchars,
      commaToDot_digits hip, hp2, Option.getD_some, fvalMulNat]
    exact fvalToU64_fin_of_range (by positivity) hr2

/-- C3 counterexample: the raw sample with `CPUPerc` = `"-5%"` normalizes to
cpu_percent = -5, which is not at least 0. -/
theorem c3_cpu_negative_counterexample :
    (parse_stat ⟨"c".data, "-5%".data, "".data, "".data, "".data⟩).1 = .fin (-5) ∧
    ¬ fvalNonneg (parse_stat ⟨"c".data, "-5%".data, "".data, "".data, "".data⟩).1 := by
  constructor
  · with_unfolding_all decide
  · with_unfolding_all decide

/-- C3 (amended): for every RawSample all six byte fields are non-negative,
an unparseable `CPUPerc` string defaults cpu_percent to 0.0, and a missing
memory-limit side defaults to 0; the claim's `cpu_percent` is at least 0`
clause is dropped, since a percent string with a leading minus yields a
negative value. -/
theorem c3_amended_nonneg_defaults (stat : DockerStat) :
    (0 : ℤ) ≤ ((parse_stat stat).2.1 : ℤ) ∧
    (0 : ℤ) ≤ ((parse_stat stat).2.2.1 : ℤ) ∧
    (0 : ℤ) ≤ ((parse_stat stat).2.2.2.1 : ℤ) ∧
    (0 : ℤ) ≤ ((parse_stat stat).2.2.2.2.1 : ℤ) ∧
    (0 : ℤ) ≤ ((parse_stat stat).2.2.2.2.2.1 : ℤ) ∧
    (0 : ℤ) ≤ ((parse_stat stat).2.2.2.2.2.2 : ℤ) ∧
    (parseF64 (commaToDot (trimEndPercent stat.cpu_perc)) = none →
      (parse_stat stat).1 = .fin 0) ∧
    ('/' ∉ stat.mem_usage → (parse_stat stat).2.2.1 = 0) := by
  refine ⟨Int.ofNat_nonneg _, Int.ofNat_nonneg _, Int.ofNat_nonneg _, Int.ofNat_nonneg _,
    Int.ofNat_nonneg _, Int.ofNat_nonneg _, ?_, ?_⟩
  · intro h
    show parse_percent stat.cpu_perc = .fin 0
    unfold parse_percent
    rw [h]
    rfl
  · intro h
    show parse_bytes (((((splitChar '/' stat.mem_usage).map trimStr).get? 1)).getD "0".data) = 0
    rw [splitChar_not_mem h]
    simp
    decide

/-- Witness for C3 (amended) at a sample with unparseable cpu and no
memory-limit side. -/
theorem c3_amended_witness :
    (parse_stat ⟨"c".data, "boo".data, "1B".data, "x".data, "y".data⟩).1 = .fin 0 ∧
    (parse_stat ⟨"c".data, "boo".data, "1B".data, "x".data, "y".data⟩).2.2.1 = 0 :=
  ⟨(c3_amended_nonneg_defaults _).2.2.2.2.2.2.1 (by decide),
   (c3_amended_nonneg_defaults _).2.2.2.2.2.2.2 (by decide)⟩

/-- C5: `parse_io` splits its input at `/`, trims whitespace around each
side, applies `parse_bytes` to each side independently, yields 0 for a
missing second side, and on `"1.2kB / 3.4kB"` returns (1228, 3481). -/
theorem c5_composite_pair_split :
    (∀ a b : Str, '/' ∉ a → '/' ∉ b →
      parse_io (a ++ '/' :: b) = (parse_bytes (trimStr a), parse_bytes (trimStr b))) ∧
    (∀ s : Str, '/' ∉ s → parse_io s = (parse_bytes (trimStr s), 0)) ∧
    parse_io "1.2kB / 3.4kB".data = (1228, 3481) := by
  refine ⟨?_, ?_, by with_unfolding_all decide⟩
  · intro a b ha hb
    unfold parse_io
    rw [splitChar_append ha, splitChar_not_mem hb]
    simp
  · intro s hs
    unfold parse_io
    rw [splitChar_not_mem hs]
    simp

/-- Witness for C5 at a two-sided composite string. -/
theorem c5_witness :
    parse_io ("5B".data ++ '/' :: "6B".data) =
      (parse_bytes (trimStr "5B".data), parse_bytes (trimStr "6B".data)) :=
  c5_composite_pair_split.1 "5B".data "6B".data (by decide) (by decide)

set_option maxRecDepth 8000 in
/-- C6: the percent parser returns 0.0 on any float-parse failure, is
exactly the cpu field of `parse_stat`, and maps `"12.34%"` to 12.34,
`"0.00%"` to 0.0 and `"bogus"` to 0.0. -/
theorem c6_parse_percent_spec :
    (∀ s : Str, parseF64 (commaToDot (trimEndPercent s)) = none → parse_percent s = .fin 0) ∧
    (∀ stat : DockerStat, (parse_stat stat).1 = parse_percent stat.cpu_perc) ∧
    parse_percent "12.34%".data = .fin (617 / 50) ∧
    parse_percent "0.00%".data = .fin 0 ∧
    parse_percent "bogus".data = .fin 0 := by
  refine ⟨?_, fun stat => rfl, by with_unfolding_all decide, by with_unfolding_all decide,
    by with_unfolding_all decide⟩
  intro s h
  unfold parse_percent
  rw [h]
  rfl

/-- Witness for C6 at the unparseable input `bogus`. -/
theorem c6_witness : parse_percent "bogus".data = .fin 0 :=
  c6_parse_percent_spec.1 "bogus".data (by decide)

/-- C7: an input with no recognized unit suffix gives 0, an input whose
numeric portion fails to parse gives 0, and `"--"` and `""` both give 0. -/
theorem c7_unmatched_zero :
    (∀ s : Str, (∀ p ∈ unitsList, endsWith s p.1 = false) → parse_bytes s = 0) ∧
    (∀ (s : Str) (p : Str × ℕ),
      unitsList.find? (fun q => endsWith s q.1) = some p →
      parseF64 (commaToDot (trimStr (s.take (s.length - p.1.length)))) = none →
      parse_bytes s = 0) ∧
    parse_bytes "--".data = 0 ∧
    parse_bytes "".data = 0 := by
  refine ⟨?_, ?_, by decide, by decide⟩
  · intro s h
    unfold parse_bytes
    rw [List.find?_eq_none.mpr fun p hp => by simp [h p hp]]
  · intro s p hfind hparse
    simp only [parse_bytes, hfind, hparse, Option.getD_none, fvalMulNat]
    norm_num [fvalToU64]

/-- Witness for C7 at the placeholder input `--`. -/
theorem c7_witness : parse_bytes "--".data = 0 :=
  c7_unmatched_zero.1 "--".data (by decide)

/-- C9: after two successive updates for the same container name, the store
holds under that name exactly the seven values of the second sample, and an
entry is created with a sample's full values on first observation. -/
theorem c9_last_write_wins (m : Metrics) (s1 s2 : DockerStat) (_h : s1.name = s2.name) :
    readRec ((m.update s1).update s2) s2.name = recOfStat s2 ∧
    readRec (emptyMetrics.update s2) s2.name = recOfStat s2 := by
  constructor <;>
    simp [Metrics.update, updateSteps, readRec, recOfStat, gaugeSet, List.foldl]

/-- Witness for C9 at the two concrete `web` samples. -/
theorem c9_witness :
    readRec ((emptyMetrics.update s1c).update s2c) s2c.name = recOfStat s2c :=
  (c9_last_write_wins emptyMetrics s1c s2c rfl).1

/-- Witness for C4 at the size string `1.2kB`. -/
theorem c4_witness :
    unitsList.find? (fun p => endsWith ((['1'] ++ '.' :: ['2']) ++ "kB".data) p.1) =
      some ("kB".data, 1024) ∧
    parse_bytes ((['1'] ++ '.' :: ['2']) ++ "kB".data) =
      Int.toNat ⌊decimalVal ['1'] ['2'] * ((1024 : ℕ) : ℚ)⌋ ∧
    parse_bytes (['1'] ++ "kB".data) =
      Int.toNat ⌊(digitsToNat ['1'] : ℚ) * ((1024 : ℕ) : ℚ)⌋ :=
  c4_valid_size_strings ['1'] ['2'] "kB".data 1024 '.' (by decide) (by decide) (by decide)
    (by decide) (Or.inl rfl) (by with_unfolding_all decide) (by with_unfolding_all decide)

set_option maxRecDepth 4000 in
/-- C1 (fails on the code): the `/metrics` route gathers from the registry
without acquiring the mutex that guards `Metrics`, so a snapshot interleaved
between two of the seven atomic gauge writes of one update is observable; the
state after the full first sample and the first three writes of the second
holds a `web` record equal to neither sample's record (cpu and memory from the
second, network and block from the first), refuting per-record snapshot
atomicity. -/
theorem c1_torn_snapshot :
    Observable emptyMetrics [s1c, s2c] tornState ∧
    ¬ FromOneSample tornState "web".data [s1c, s2c] := by
  constructor
  · exact .later _ _ _ _ (.during _ s2c [] 3)
  · intro hcl
    rcases hcl with h | ⟨s, hs, h⟩
    · exact absurd h (by with_unfolding_all decide)
    · rcases List.mem_cons.mp hs with rfl | hs2
      · exact absurd h (by with_unfolding_all decide)
      · rcases List.mem_cons.mp hs2 with rfl | hs3
        · exact absurd h (by with_unfolding_all decide)
        · exact absurd hs3 (List.not_mem_nil _)

/-- C2 counterexample: with the unparseable port value `--port abc`, and with
the unknown flag `--bogus`, the process does not exit at all: both invocations
proceed to serve the prometheus endpoint with the default configuration, so no
non-zero-exit-with-usage happens, contrary to the claim. -/
theorem c2_counterexample :
    mainAction ["--port".data, "abc".data] = .servePrometheus defaultConfig ∧
    mainAction ["--bogus".data] = .servePrometheus defaultConfig ∧
    ¬ ExitsNonZeroWithUsage (mainAction ["--port".data, "abc".data]) ∧
    ¬ ExitsNonZeroWithUsage (mainAction ["--bogus".data]) := by
  have h1 : mainAction ["--port".data, "abc".data] = .servePrometheus defaultConfig := by
    decide
  have h2 : mainAction ["--bogus".data] = .servePrometheus defaultConfig := by decide
  refine ⟨h1, h2, ?_, ?_⟩
  · rintro ⟨code, hc, -⟩
    rw [h1] at hc
    cases hc
  · rintro ⟨code, hc, -⟩
    rw [h2] at hc
    cases hc

/-- C2 (amended): an unparseable port value falls back to the default 9187
and the loop continues; an argument that is no known flag is silently ignored;
an unrecognized `--target` value (after the loop) makes the process print
usage and exit with status zero; and no invocation ever exits with a non-zero
status from configuration handling. -/
theorem c2_amended_behavior :
    (∀ (v : Str) (cfg : Config) (rest : List Str), parseU16 v = none →
      argLoop ("--port".data :: v :: rest) cfg = argLoop rest { cfg with port := 9187 }) ∧
    (∀ (a : Str) (cfg : Config) (rest : List Str),
      a ∉ ["--target".data, "--port".data, "-p".data, "--host".data, "--db".data,
        "-h".data, "--help".data] →
      argLoop (a :: rest) cfg = argLoop rest cfg) ∧
    (∀ (args : List Str) (cfg : Config),
      argLoop args defaultConfig = .proceed cfg →
      cfg.target ≠ "prometheus".data → cfg.target ≠ "influxdb".data →
      mainAction args = .exit 0 true) ∧
    (∀ args : List Str, ¬ ExitsNonZeroWithUsage (mainAction args)) := by
  refine ⟨?_, ?_, ?_, ?_⟩
  · intro v cfg rest h
    rw [argLoop.eq_def]
    simp only [if_neg (show ¬("--port".data = "--target".data) by decide),
      if_pos (Or.inl rfl : "--port".data = "--port".data ∨ "--port".data = "-p".data), h]
    rfl
  · intro a cfg rest h
    simp only [List.mem_cons, List.not_mem_nil, or_false, not_or] at h
    obtain ⟨h1, h2, h3, h4, h5, h6, h7⟩ := h
    rw [argLoop.eq_def]
    simp only [if_neg h1, if_neg (show ¬(a = "--port".data ∨ a = "-p".data) by tauto),
      if_neg h4, if_neg h5, if_neg (show ¬(a = "-h".data ∨ a = "--help".data) by tauto)]
  · intro args cfg hal h1 h2
    unfold mainAction
    rw [hal]
    simp only [if_neg h1, if_neg h2]
  · intro args
    rintro ⟨code, hc, hcode⟩
    revert hc
    unfold mainAction
    rcases argLoop args defaultConfig with cfg | cfg
    · show (if cfg.target = "prometheus".data then MainAction.servePrometheus cfg
        else if cfg.target = "influxdb".data then MainAction.runInfluxLoop cfg
        else MainAction.exit 0 true) = MainAction.exit code true → False
      intro hc
      split_ifs at hc
      all_goals try cases hc
      all_goals omega
    · show MainAction.exit 0 true = MainAction.exit code true → False
      intro hc
      injection hc with hc1 _
      omega

/-- Witness for C2 (amended) at the concrete invocation `--port abc`. -/
theorem c2_amended_witness :
    argLoop ("--port".data :: "abc".data :: []) defaultConfig =
      argLoop [] { defaultConfig with port := 9187 } :=
  c2_amended_behavior.1 "abc".data defaultConfig [] (by decide)

set_option maxRecDepth 8000 in
/-- C8: a line that fails deserialization is dropped without changing the
store and without ending the loop; the concrete line missing `Name` fails
deserialization, the spec's example line succeeds, and after ingesting the bad
line then the good line the store holds exactly the good line's record. -/
theorem c8_malformed_line_skipped :
    (∀ (m : Metrics) (line : Str) (rest : List Str), from_str line = none →
      ingestLines m (line :: rest) = ingestLines m rest) ∧
    from_str badLine = none ∧
    from_str goodLine = some goodStat ∧
    readRec (ingestLines emptyMetrics [badLine, goodLine]) "web".data = recOfStat goodStat := by
  have h1 : from_str badLine = none := by decide
  have h2 : from_str goodLine = some goodStat := by decide
  refine ⟨?_, h1, h2, ?_⟩
  · intro m line rest h
    simp only [ingestLines, List.foldl_cons, h]
  · have h3 : ingestLines emptyMetrics [badLine, goodLine] = emptyMetrics.update goodStat := by
      simp only [ingestLines, List.foldl_cons, List.foldl_nil, h1, h2]
    rw [h3, show "web".data = goodStat.name from rfl]
    simp [Metrics.update, updateSteps, readRec, recOfStat, gaugeSet]

/-- Witness for C8: ingesting just the bad line leaves the store as it
was. -/
theorem c8_witness :
    ingestLines emptyMetrics [badLine] = ingestLines emptyMetrics [] :=
  c8_malformed_line_skipped.1 emptyMetrics badLine [] (by decide)

/-- C10: `parse_bytes` is total with a result that always fits in a `u64`;
when a suffix matches, a parsed negative number or NaN saturates to 0 and a
parsed infinity saturates to `u64::MAX`. -/
theorem c10_parse_bytes_total_saturating :
    (∀ s : Str, parse_bytes s < 2 ^ 64) ∧
    (∀ (s : Str) (p : Str × ℕ) (q : ℚ),
      unitsList.find? (fun r => endsWith s r.1) = some p →
      (parseF64 (commaToDot (trimStr (s.take (s.length - p.1.length))))).getD (.fin 0) =
        .fin q →
      q < 0 → parse_bytes s = 0) ∧
    (∀ (s : Str) (p : Str × ℕ),
      unitsList.find? (fun r => endsWith s r.1) = some p →
      (parseF64 (commaToDot (trimStr (s.take (s.length - p.1.length))))).getD (.fin 0) =
        .nan →
      parse_bytes s = 0) ∧
    (∀ (s : Str) (p : Str × ℕ),
      unitsList.find? (fun r => endsWith s r.1) = some p →
      (parseF64 (commaToDot (trimStr (s.take (s.length - p.1.length))))).getD (.fin 0) =
        .inf →
      parse_bytes s = U64MAX) := by
  have hb : ∀ v : FVal, fvalToU64 v ≤ U64MAX := by
    intro v
    cases v with
    | fin q =>
      simp only [fvalToU64]
      split
      · exact Nat.zero_le _
      · exact min_le_right _ _
    | inf => exact le_refl _
    | ninf => exact Nat.zero_le _
    | nan => exact Nat.zero_le _
  refine ⟨?_, ?_, ?_, ?_⟩
  · intro s
    have hle : parse_bytes s ≤ U64MAX := by
      rcases hf : unitsList.find? (fun q => endsWith s q.1) with _ | p
      · simp [parse_bytes, hf]
      · simp only [parse_bytes, hf]
        exact hb _
    have h2 : U64MAX < 2 ^ 64 := by norm_num [U64MAX]
    omega
  · intro s p q hfind hget hneg
    have hpos : 0 < p.2 := by
      have hmem := List.mem_of_find?_eq_some hfind
      have : ∀ r ∈ unitsList, 0 < r.2 := by decide
      exact this p hmem
    simp only [parse_bytes, hfind, hget, fvalMulNat, fvalToU64]
    rw [if_pos (mul_neg_of_neg_of_pos hneg (by exact_mod_cast hpos))]
  · intro s p hfind hget
    simp only [parse_bytes, hfind, hget, fvalMulNat, fvalToU64]
  · intro s p hfind hget
    simp only [parse_bytes, hfind, hget, fvalMulNat, fvalToU64]

/-- Witness for C10 at negative, NaN and infinite numeric portions. -/
theorem c10_witness :
    parse_bytes "-3B".data = 0 ∧ parse_bytes "nanB".data = 0 ∧
    parse_bytes "infB".data = U64MAX ∧ parse_bytes "9GiB".data < 2 ^ 64 :=
  ⟨c10_parse_bytes_total_saturating.2.1 "-3B".data ("B".data, 1) (-3)
      (by decide) (by with_unfolding_all decide) (by norm_num),
    c10_parse_bytes_total_saturating.2.2.1 "nanB".data ("B".data, 1)
      (by decide) (by decide),
    c10_parse_bytes_total_saturating.2.2.2 "infB".data ("B".data, 1)
      (by decide) (by decide),
    c10_parse_bytes_total_saturating.1 "9GiB".data⟩
